import Mathlib

/-!
Shallow embedding of `blackjack_with_halves_counting.py`
(`BlackjackEnvWithHalves`, a gym blackjack environment with a Halves
card-counting accumulator and a finite four-deck shoe).

Modelling conventions:
* Cards are naturals (1 = Ace, 2–10; face cards are 10).
* The shoe (`self.deck`, a Python list used as a bag:
  `np_random.choice` + `list.remove`) is a `Multiset ℕ`.
* Randomness (`np_random.choice`) is resolved by an explicit tape of
  cards; a tape entry not present in the shoe, or an exhausted tape,
  is the modelling error `badTape` and corresponds to no real run of
  the program.  Drawing from an empty shoe — the `ValueError` that
  `np.random.choice([])` raises — is the error `emptyShoe`.
* Python floats carrying count/reward values are `ℚ` (all values are
  exact multiples of 0.5).
-/

namespace Blackjack

/-- Halves system card scores (`card_scores` dict in the source).
Keys outside 1–10 raise `KeyError` in Python and never occur; the
catch-all 0 branch is unreachable for real cards. -/
def card_scores (c : ℕ) : ℚ :=
  if c = 2 then 1/2
  else if c = 3 then 1
  else if c = 4 then 1
  else if c = 5 then 3/2
  else if c = 6 then 1
  else if c = 7 then 1/2
  else if c = 8 then 0
  else if c = 9 then -(1/2)
  else if c = 10 then -1
  else if c = 1 then -1
  else 0

/-- `cmp(a, b) = float(a > b) - float(a < b)`. -/
def cmp (a b : ℕ) : ℚ :=
  (if a > b then (1 : ℚ) else 0) - (if a < b then (1 : ℚ) else 0)

/-- `deck = [1, 2, 3, 4, 5, 6, 7, 8, 9, 10, 10, 10, 10]`. -/
def deck : List ℕ := [1, 2, 3, 4, 5, 6, 7, 8, 9, 10, 10, 10, 10]

/-- `usable_ace(hand)`: `1 in hand and sum(hand) + 10 <= 21`. -/
def usable_ace (hand : List ℕ) : Bool :=
  decide (1 ∈ hand) && decide (hand.sum + 10 ≤ 21)

/-- `sum_hand(hand)`: naive sum, plus 10 when the ace is usable. -/
def sum_hand (hand : List ℕ) : ℕ :=
  if usable_ace hand then hand.sum + 10 else hand.sum

/-- `is_bust(hand)`: `sum_hand(hand) > 21`. -/
def is_bust (hand : List ℕ) : Bool :=
  decide (sum_hand hand > 21)

/-- `score(hand)`: 0 if bust else `sum_hand(hand)`. -/
def score (hand : List ℕ) : ℕ :=
  if is_bust hand then 0 else sum_hand hand

/-- `is_natural(hand)`: `sorted(hand) == [1, 10]`. -/
def is_natural (hand : List ℕ) : Bool :=
  decide (List.insertionSort (· ≤ ·) hand = [1, 10])

/-- The full shoe `deck.copy() * 4` (four concatenated single decks). -/
def full_deck : Multiset ℕ := ↑(deck ++ deck ++ deck ++ deck)

/-- The mutable state of `BlackjackEnvWithHalves`. -/
structure State where
  deck : Multiset ℕ
  player : List ℕ
  dealer : List ℕ
  current_count : ℚ
  natural : Bool
  sab : Bool
deriving DecidableEq

/-- Failure modes of a modelled run. -/
inductive Err where
  | emptyShoe
  | badTape
  | badAction
deriving DecidableEq

/-- `draw_card(self)`: pick the next tape card, check it is in the shoe,
remove it.  An empty shoe is the unrecoverable `ValueError` of
`np_random.choice([])`. -/
def draw1 (tape : List ℕ) (s : State) : Except Err (ℕ × List ℕ × State) :=
  if s.deck = 0 then .error .emptyShoe
  else
    match tape with
    | [] => .error .badTape
    | c :: rest =>
      if c ∈ s.deck then .ok (c, rest, { s with deck := s.deck.erase c })
      else .error .badTape

/-- `reshuffle_deck(self)`: restore the full four-deck shoe and reset the
running count. -/
def reshuffle_deck (s : State) : State :=
  { s with deck := full_deck, current_count := 0 }

/-- `count_cards(self, card)`: add the Halves score of `card` to the
running count. -/
def count_cards (c : ℕ) (s : State) : State :=
  { s with current_count := s.current_count + card_scores c }

/-- The dealer-resolution loop
`while sum_hand(self.dealer) < 17: card = draw; count; append`. -/
def dealerLoop : List ℕ → State → Except Err (State × List ℕ)
  | [], s =>
    if sum_hand s.dealer < 17 then
      if s.deck = 0 then .error .emptyShoe else .error .badTape
    else .ok (s, [])
  | c :: rest, s =>
    if sum_hand s.dealer < 17 then
      if s.deck = 0 then .error .emptyShoe
      else if c ∈ s.deck then
        dealerLoop rest
          { s with deck := s.deck.erase c,
                   current_count := s.current_count + card_scores c,
                   dealer := s.dealer ++ [c] }
      else .error .badTape
    else .ok (s, c :: rest)

/-- `step(self, action)`.  Returns the new state, the reward, the `done`
flag and the unconsumed tape.  Actions outside `Discrete(3)` fail the
source's `assert`. -/
def stepF (action : ℕ) (tape : List ℕ) (s : State) :
    Except Err (State × ℚ × Bool × List ℕ) :=
  if 3 ≤ action then .error .badAction
  else if action = 1 then
    -- hit: add a card to players hand and return
    match draw1 tape s with
    | .error e => .error e
    | .ok (c, t1, s1) =>
      let s2 := { s1 with current_count := s1.current_count + card_scores c,
                          player := s1.player ++ [c] }
      if is_bust s2.player then .ok (s2, -1, true, t1)
      else .ok (s2, 0, false, t1)
  else if action = 2 then
    -- double: add one more card to player and double reward
    match draw1 tape s with
    | .error e => .error e
    | .ok (c, t1, s1) =>
      let s2 := { s1 with current_count := s1.current_count + card_scores c,
                          player := s1.player ++ [c] }
      -- count second dealer's card, then resolve the dealer
      let s3 := { s2 with
                  current_count := s2.current_count + card_scores (s2.dealer.getD 1 0) }
      match dealerLoop t1 s3 with
      | .error e => .error e
      | .ok (s4, t4) =>
        .ok (s4, 2 * cmp (score s4.player) (score s4.dealer), true, t4)
  else
    -- stand: count second dealer's card, play out the dealers hand, score
    let s1 := { s with
                current_count := s.current_count + card_scores (s.dealer.getD 1 0) }
    match dealerLoop tape s1 with
    | .error e => .error e
    | .ok (s2, t2) =>
      let r0 := cmp (score s2.player) (score s2.dealer)
      let r :=
        if s2.sab = true ∧ is_natural s2.player = true ∧ is_natural s2.dealer = false
        then (1 : ℚ)
        else if s2.sab = false ∧ s2.natural = true ∧ is_natural s2.player = true ∧ r0 = 1
        then 3/2
        else r0
      .ok (s2, r, true, t2)

/-- The dealing phase of `reset(self)`: draw the dealer hand (counting
only the face-up first card) and the player hand (counting both
cards). -/
def dealPhase (tape : List ℕ) (s : State) : Except Err (State × List ℕ) :=
  match draw1 tape s with
  | .error e => .error e
  | .ok (c1, t1, s1) =>
    match draw1 t1 s1 with
    | .error e => .error e
    | .ok (c2, t2, s2) =>
      let sd := { s2 with dealer := [c1, c2],
                          current_count := s2.current_count + card_scores c1 }
      match draw1 t2 sd with
      | .error e => .error e
      | .ok (c3, t3, s3) =>
        match draw1 t3 s3 with
        | .error e => .error e
        | .ok (c4, t4, s4) =>
          .ok ({ s4 with player := [c3, c4],
                         current_count := s4.current_count + card_scores c3 + card_scores c4 },
               t4)

/-- `reset(self)`: reshuffle when fewer than 15 cards remain, then deal
both hands. -/
def resetF (tape : List ℕ) (s0 : State) : Except Err (State × List ℕ) :=
  dealPhase tape (if Multiset.card s0.deck < 15 then reshuffle_deck s0 else s0)

/-- Play the post-reset phase of one round: issue the listed actions until
`step` reports `done` (or the action list runs out). -/
def playSteps : List ℕ → List ℕ → State → Except Err State
  | [], _, s => .ok s
  | a :: as, tape, s =>
    match stepF a tape s with
    | .error e => .error e
    | .ok (s2, _, done, t2) => if done then .ok s2 else playSteps as t2 s2

/-- One full round: `reset()` followed by `step` calls until `done`. -/
def playRound (actions tape : List ℕ) (s : State) : Except Err State :=
  match resetF tape s with
  | .error e => .error e
  | .ok (s1, t1) => playSteps actions t1 s1


/-- Moving one card from the shoe into a hand preserves the combined
card pool of the round. -/
lemma total_move (l : List ℕ) (d : Multiset ℕ) (c : ℕ) (hc : c ∈ d) :
    (↑(l ++ [c]) : Multiset ℕ) + d.erase c = ↑l + d := by
  rw [← Multiset.coe_add, add_assoc, Multiset.coe_singleton,
    Multiset.singleton_add, Multiset.cons_erase hc]

/-- Unfolded form of `draw1` on a non-empty tape. -/
lemma draw1_cons (c : ℕ) (t : List ℕ) (s : State) :
    draw1 (c :: t) s =
      if s.deck = 0 then .error .emptyShoe
      else if c ∈ s.deck then .ok (c, t, { s with deck := s.deck.erase c })
      else .error .badTape := rfl

/-- Unfolded form of `draw1` on an exhausted tape. -/
lemma draw1_nil (s : State) :
    draw1 [] s = if s.deck = 0 then .error .emptyShoe else .error .badTape := by
  unfold draw1
  split <;> rfl

/-- Characterisation of a successful `draw1`. -/
lemma draw1_ok_iff (tape : List ℕ) (s : State) (c : ℕ) (t2 : List ℕ) (s2 : State) :
    draw1 tape s = .ok (c, t2, s2) ↔
      tape = c :: t2 ∧ c ∈ s.deck ∧ s2 = { s with deck := s.deck.erase c } := by
  cases tape with
  | nil =>
    rw [draw1_nil]
    split_ifs <;> simp
  | cons a t =>
    rw [draw1_cons]
    split_ifs with h0 h1
    · simp [h0]
    · constructor
      · intro h
        simp only [Except.ok.injEq, Prod.mk.injEq] at h
        obtain ⟨rfl, rfl, rfl⟩ := h
        exact ⟨rfl, h1, rfl⟩
      · rintro ⟨h, hc, rfl⟩
        obtain ⟨rfl, rfl⟩ := List.cons.inj h
        rfl
    · constructor
      · intro h
        exact absurd h (by simp)
      · rintro ⟨h, hc, rfl⟩
        obtain ⟨rfl, rfl⟩ := List.cons.inj h
        exact absurd hc h1

/-- `draw1` raises the empty-shoe error exactly on an empty shoe. -/
lemma draw1_empty_iff (tape : List ℕ) (s : State) :
    draw1 tape s = .error .emptyShoe ↔ s.deck = 0 := by
  cases tape with
  | nil =>
    rw [draw1_nil]
    split_ifs with h0 <;> simp [h0]
  | cons a t =>
    rw [draw1_cons]
    split_ifs with h0 h1 <;> simp [h0]

/-- What a successful dealer-resolution loop guarantees: the dealer
finishes at 17 or more, the player hand, flags and combined card pool
are untouched, and the dealer hand only grows. -/
lemma dealerLoop_ok (tape : List ℕ) (s s2 : State) (t2 : List ℕ)
    (h : dealerLoop tape s = .ok (s2, t2)) :
    17 ≤ sum_hand s2.dealer ∧ s2.player = s.player ∧ s2.sab = s.sab ∧
    s2.natural = s.natural ∧
    (↑s2.player : Multiset ℕ) + ↑s2.dealer + s2.deck =
      ↑s.player + ↑s.dealer + s.deck ∧
    ∃ ds, s2.dealer = s.dealer ++ ds := by
  induction tape generalizing s with
  | nil =>
    unfold dealerLoop at h
    split at h
    · split at h <;> exact absurd h (by simp)
    · simp only [Except.ok.injEq, Prod.mk.injEq] at h
      obtain ⟨rfl, rfl⟩ := h
      exact ⟨by omega, rfl, rfl, rfl, rfl, [], by simp⟩
  | cons c rest ih =>
    unfold dealerLoop at h
    split at h
    · split at h
      · exact absurd h (by simp)
      · split at h
        · obtain ⟨h17, hp, hsab, hnat, htot, ds, hds⟩ := ih _ h
          have key : (↑s.player : Multiset ℕ) + ↑(s.dealer ++ [c]) + s.deck.erase c =
              ↑s.player + ↑s.dealer + s.deck := by
            rw [add_assoc, add_assoc]
            congr 1
            exact total_move s.dealer s.deck c (by assumption)
          refine ⟨h17, hp, hsab, hnat, htot.trans key, [c] ++ ds, ?_⟩
          rw [hds]
          simp
        · exact absurd h (by simp)
    · simp only [Except.ok.injEq, Prod.mk.injEq] at h
      obtain ⟨rfl, rfl⟩ := h
      exact ⟨by omega, rfl, rfl, rfl, rfl, [], by simp⟩

/-- C3: the Halves weights of one single-deck pass
(ranks 1,…,9 once each and 10 four times) sum to exactly 0, both as a
plain sum and as a run of the count accumulator. -/
theorem C3_single_deck_count_zero :
    (deck.map card_scores).sum = 0 ∧
    (deck.foldl (fun s c => count_cards c s)
        { deck := full_deck, player := [], dealer := [],
          current_count := 0, natural := false, sab := false }).current_count = 0 := by
  constructor <;> with_unfolding_all rfl

/-- C7: `usable_ace` holds iff the hand has an ace and the naive sum
plus 10 stays within 21; `sum_hand` is the naive sum plus 10 exactly in
the usable-ace case; a usable ace forces `sum_hand ≤ 21`. -/
theorem C7_usable_ace_sum_hand (hand : List ℕ) :
    (usable_ace hand = true ↔ (1 ∈ hand ∧ hand.sum + 10 ≤ 21)) ∧
    (sum_hand hand = if usable_ace hand then hand.sum + 10 else hand.sum) ∧
    (usable_ace hand = true → sum_hand hand ≤ 21) := by
  refine ⟨?_, rfl, ?_⟩
  · simp [usable_ace]
  · intro h
    have h2 : hand.sum + 10 ≤ 21 := by
      simpa [usable_ace] using (by simpa [usable_ace] using h : _ ∧ _).2
    simp [sum_hand, h, h2]

/-- Witness for C7 at the concrete hand `[1, 5]`. -/
theorem C7_witness :
    (usable_ace [1, 5] = true ↔ (1 ∈ [1, 5] ∧ [1, 5].sum + 10 ≤ 21)) ∧
    sum_hand [1, 5] ≤ 21 :=
  ⟨(C7_usable_ace_sum_hand [1, 5]).1,
   (C7_usable_ace_sum_hand [1, 5]).2.2 (by decide)⟩


/-- C8: a successful draw removes exactly one card from the shoe, and
`reshuffle_deck` restores a 52-card shoe made of four single decks
(per rank: four copies of each of 1–9 and sixteen tens) and resets the
running count to 0. -/
theorem C8_draw_and_reshuffle (tape t2 : List ℕ) (s s2 : State) (c : ℕ)
    (h : draw1 tape s = .ok (c, t2, s2)) :
    Multiset.card s2.deck + 1 = Multiset.card s.deck ∧
    (∀ st : State, (reshuffle_deck st).deck = full_deck ∧
      Multiset.card (reshuffle_deck st).deck = 52 ∧
      (reshuffle_deck st).current_count = 0) ∧
    full_deck = ↑deck + ↑deck + ↑deck + ↑deck ∧
    (∀ r ∈ Finset.Icc 1 9, Multiset.count r full_deck = 4) ∧
    Multiset.count 10 full_deck = 16 := by
  obtain ⟨rfl, hc, rfl⟩ := (draw1_ok_iff tape s c t2 s2).1 h
  refine ⟨?_, ?_, by decide, by decide, by decide⟩
  · show Multiset.card (s.deck.erase c) + 1 = Multiset.card s.deck
    have h1 : 0 < Multiset.card s.deck :=
      Multiset.card_pos_iff_exists_mem.2 ⟨c, hc⟩
    have h2 := Multiset.card_erase_of_mem hc
    rw [Nat.pred_eq_sub_one] at h2
    omega
  · intro st
    exact ⟨rfl, (by decide : Multiset.card full_deck = 52), rfl⟩

/-- Witness for C8: drawing a 7 from the two-card shoe `{7, 8}`. -/
theorem C8_witness :
    Multiset.card ((⟨↑[8], [], [], 0, false, false⟩ : State).deck) + 1 =
      Multiset.card ((↑[7, 8] : Multiset ℕ)) ∧
    (∀ st : State, (reshuffle_deck st).deck = full_deck ∧
      Multiset.card (reshuffle_deck st).deck = 52 ∧
      (reshuffle_deck st).current_count = 0) ∧
    full_deck = ↑deck + ↑deck + ↑deck + ↑deck ∧
    (∀ r ∈ Finset.Icc 1 9, Multiset.count r full_deck = 4) ∧
    Multiset.count 10 full_deck = 16 :=
  C8_draw_and_reshuffle [7] [] ⟨↑[7, 8], [], [], 0, false, false⟩
    ⟨↑[8], [], [], 0, false, false⟩ 7 (by with_unfolding_all rfl)

/-- C9: a hit that does not bust the player leaves the dealer hand
unchanged, returns `done = false` with reward 0, and changes the
running count by exactly the Halves weight of the single drawn card
(the dealer hole card is not counted here). -/
theorem C9_hit_frame (tape t2 : List ℕ) (s s2 : State) (r : ℚ) (d : Bool)
    (h : stepF 1 tape s = .ok (s2, r, d, t2))
    (hb : is_bust s2.player = false) :
    s2.dealer = s.dealer ∧ d = false ∧ r = 0 ∧
    ∃ c, c ∈ s.deck ∧ s2.player = s.player ++ [c] ∧
      s2.deck = s.deck.erase c ∧
      s2.current_count = s.current_count + card_scores c := by
  unfold stepF at h
  split at h
  · omega
  · split at h
    · split at h
      · exact absurd h (by simp)
      · rename_i c t1 s1 heq
        obtain ⟨rfl, hc, rfl⟩ := (draw1_ok_iff tape s c t1 s1).1 heq
        dsimp only at h
        split at h
        · simp only [Except.ok.injEq, Prod.mk.injEq] at h
          obtain ⟨rfl, rfl, rfl, rfl⟩ := h
          rename_i hbust
          rw [hbust] at hb
          exact absurd hb (by simp)
        · simp only [Except.ok.injEq, Prod.mk.injEq] at h
          obtain ⟨rfl, rfl, rfl, rfl⟩ := h
          exact ⟨rfl, rfl, rfl, c, hc, rfl, rfl, rfl⟩
    · simp at *

/-- Witness for C9: hitting a 9 on the hand `[5, 3]`. -/
theorem C9_witness :
    ((⟨↑[8], [5, 3, 9], [10, 7], -(1/2), false, false⟩ : State)).dealer = [10, 7] ∧
    false = false ∧ (0 : ℚ) = 0 ∧
    ∃ c, c ∈ ((↑[9, 8] : Multiset ℕ)) ∧
      ([5, 3, 9] : List ℕ) = [5, 3] ++ [c] ∧
      ((↑[8] : Multiset ℕ)) = ((↑[9, 8] : Multiset ℕ)).erase c ∧
      (-(1/2) : ℚ) = 0 + card_scores c :=
  C9_hit_frame [9] [] ⟨↑[9, 8], [5, 3], [10, 7], 0, false, false⟩
    ⟨↑[8], [5, 3, 9], [10, 7], -(1/2), false, false⟩
    0 false (by with_unfolding_all rfl) (by decide)


/-- `cmp` only takes the values -1, 0 and 1. -/
lemma cmp_cases (a b : ℕ) : cmp a b = -1 ∨ cmp a b = 0 ∨ cmp a b = 1 := by
  unfold cmp
  split_ifs <;> norm_num

/-- `cmp` on a strictly smaller first argument. -/
lemma cmp_lt (a b : ℕ) (hab : a < b) : cmp a b = -1 := by
  unfold cmp
  rw [if_neg (by omega), if_pos hab]
  norm_num

/-- Dissection of a successful stand (`step(0)`). -/
lemma step0_ok (tape t2 : List ℕ) (s s2 : State) (r : ℚ) (d : Bool)
    (h : stepF 0 tape s = .ok (s2, r, d, t2)) :
    17 ≤ sum_hand s2.dealer ∧ s2.player = s.player ∧ s2.sab = s.sab ∧
    s2.natural = s.natural ∧ d = true ∧
    r = (if s2.sab = true ∧ is_natural s2.player = true ∧ is_natural s2.dealer = false
         then (1 : ℚ)
         else if s2.sab = false ∧ s2.natural = true ∧ is_natural s2.player = true ∧
             cmp (score s2.player) (score s2.dealer) = 1
         then 3/2
         else cmp (score s2.player) (score s2.dealer)) := by
  unfold stepF at h
  split at h
  · omega
  · split at h
    · omega
    · split at h
      · omega
      · dsimp only at h
        split at h
        · exact absurd h (by simp)
        · rename_i s4 t4 hdl
          obtain ⟨h17, hp, hsab, hnat, htot, ds, hds⟩ :=
            dealerLoop_ok _ _ _ _ hdl
          simp only [Except.ok.injEq, Prod.mk.injEq] at h
          obtain ⟨rfl, rfl, rfl, rfl⟩ := h
          exact ⟨h17, hp, hsab, hnat, rfl, rfl⟩

/-- Dissection of a successful double (`step(2)`). -/
lemma step2_ok (tape t2 : List ℕ) (s s2 : State) (r : ℚ) (d : Bool)
    (h : stepF 2 tape s = .ok (s2, r, d, t2)) :
    r = 2 * cmp (score s2.player) (score s2.dealer) ∧ d = true ∧
    17 ≤ sum_hand s2.dealer ∧
    ∃ c, c ∈ s.deck ∧ s2.player = s.player ++ [c] := by
  unfold stepF at h
  split at h
  · omega
  · split at h
    · omega
    · split at h
      · split at h
        · exact absurd h (by simp)
        · rename_i c t1 s1 heq
          obtain ⟨rfl, hc, rfl⟩ := (draw1_ok_iff _ s c t1 s1).1 heq
          dsimp only at h
          split at h
          · exact absurd h (by simp)
          · rename_i s4 t4 hdl
            obtain ⟨h17, hp, hsab, hnat, htot, ds, hds⟩ :=
              dealerLoop_ok _ _ _ _ hdl
            simp only [Except.ok.injEq, Prod.mk.injEq] at h
            obtain ⟨rfl, rfl, rfl, rfl⟩ := h
            exact ⟨rfl, rfl, h17, c, hc, hp⟩
      · omega

/-- A hit that busts the player is rewarded -1. -/
lemma step1_bust (tape t2 : List ℕ) (s s2 : State) (r : ℚ) (d : Bool)
    (h : stepF 1 tape s = .ok (s2, r, d, t2))
    (hb : is_bust s2.player = true) : r = -1 := by
  unfold stepF at h
  split at h
  · omega
  · split at h
    · split at h
      · exact absurd h (by simp)
      · rename_i c t1 s1 heq
        obtain ⟨rfl, hc, rfl⟩ := (draw1_ok_iff _ s c t1 s1).1 heq
        dsimp only at h
        split at h
        · simp only [Except.ok.injEq, Prod.mk.injEq] at h
          obtain ⟨rfl, rfl, rfl, rfl⟩ := h
          rfl
        · simp only [Except.ok.injEq, Prod.mk.injEq] at h
          obtain ⟨rfl, rfl, rfl, rfl⟩ := h
          rename_i hnb
          rw [hb] at hnb
          exact absurd rfl hnb
    · omega

/-- C4: a double draws exactly one card for the player, resolves the
dealer, ends the episode, and pays twice the sign comparison of the
scores — always in {-2, 0, 2}, never a natural-blackjack bonus. -/
theorem C4_double_reward (tape t2 : List ℕ) (s s2 : State) (r : ℚ) (d : Bool)
    (h : stepF 2 tape s = .ok (s2, r, d, t2)) :
    r = 2 * cmp (score s2.player) (score s2.dealer) ∧
    (r = -2 ∨ r = 0 ∨ r = 2) ∧ d = true ∧
    ∃ c, s2.player = s.player ++ [c] := by
  obtain ⟨hr, hd, h17, c, hc, hp⟩ := step2_ok tape t2 s s2 r d h
  refine ⟨hr, ?_, hd, c, hp⟩
  rcases cmp_cases (score s2.player) (score s2.dealer) with hcc | hcc | hcc <;>
    rw [hr, hcc] <;> norm_num

/-- Witness for C4: doubling on `[10, 9]` against a standing dealer 17. -/
theorem C4_witness :
    (-2 : ℚ) = 2 * cmp (score [10, 9, 10]) (score [10, 7]) ∧
    ((-2 : ℚ) = -2 ∨ (-2 : ℚ) = 0 ∨ (-2 : ℚ) = 2) ∧ true = true ∧
    ∃ c, ([10, 9, 10] : List ℕ) = [10, 9] ++ [c] :=
  C4_double_reward [10] [] ⟨↑[10, 10, 10], [10, 9], [10, 7], 0, false, false⟩
    ⟨↑[10, 10], [10, 9, 10], [10, 7], -(1/2), false, false⟩
    (-2) true (by with_unfolding_all rfl)


/-- C5: on stand in `sab` mode, a natural player hand against a
non-natural final dealer hand is rewarded exactly +1, whatever the
score comparison says and whatever the `natural` flag is. -/
theorem C5_sab_natural_win (tape t2 : List ℕ) (s s2 : State) (r : ℚ) (d : Bool)
    (h : stepF 0 tape s = .ok (s2, r, d, t2))
    (hsab : s.sab = true)
    (hp : is_natural s2.player = true)
    (hd : is_natural s2.dealer = false) :
    r = 1 := by
  obtain ⟨h17, hpl, hsab2, hnat, hdone, hr⟩ := step0_ok tape t2 s s2 r d h
  rw [hr, if_pos ⟨hsab2.trans hsab, hp, hd⟩]

/-- Witness for C5: natural `[1, 10]` against a dealer finishing on a
non-natural 21 (`[10, 5, 6]`), with the `natural` flag also set. -/
theorem C5_witness : (1 : ℚ) = 1 :=
  C5_sab_natural_win [6] [] ⟨↑[6], [1, 10], [10, 5], 0, true, true⟩
    ⟨0, [1, 10], [10, 5, 6], 5/2, true, true⟩ 1 true
    (by with_unfolding_all rfl) rfl (by decide) (by decide)

/-- C6: the dealer-resolution loop draws exactly while the soft-adjusted
dealer total is below 17 — it draws nothing at 17 or more (soft 17
included), it draws at least one card below 17 when the shoe is
non-empty, and any completed resolution (also via stand or double)
leaves the dealer at 17 or more. -/
theorem C6_dealer_policy (tape : List ℕ) (s : State) :
    (17 ≤ sum_hand s.dealer → dealerLoop tape s = .ok (s, tape)) ∧
    (∀ s2 t2, dealerLoop tape s = .ok (s2, t2) → 17 ≤ sum_hand s2.dealer) ∧
    (sum_hand s.dealer < 17 → s.deck ≠ 0 →
      ∀ s2 t2, dealerLoop tape s = .ok (s2, t2) →
        s.dealer.length < s2.dealer.length) ∧
    (∀ t2 s2 r d, stepF 0 tape s = .ok (s2, r, d, t2) → 17 ≤ sum_hand s2.dealer) ∧
    (∀ t2 s2 r d, stepF 2 tape s = .ok (s2, r, d, t2) → 17 ≤ sum_hand s2.dealer) := by
  refine ⟨?_, ?_, ?_, ?_, ?_⟩
  · intro h17
    cases tape <;> (unfold dealerLoop; rw [if_neg (by omega)])
  · intro s2 t2 h
    exact (dealerLoop_ok tape s s2 t2 h).1
  · intro hlt hne s2 t2 h
    cases tape with
    | nil =>
      unfold dealerLoop at h
      rw [if_pos hlt, if_neg hne] at h
      exact absurd h (by simp)
    | cons c rest =>
      unfold dealerLoop at h
      rw [if_pos hlt, if_neg hne] at h
      split at h
      · obtain ⟨h17, hp, hsab, hnat, htot, ds, hds⟩ := dealerLoop_ok _ _ _ _ h
        rw [hds]
        simp
      · exact absurd h (by simp)
  · intro t2 s2 r d h
    exact (step0_ok tape t2 s s2 r d h).1
  · intro t2 s2 r d h
    exact (step2_ok tape t2 s s2 r d h).2.2.1

/-- Witness for C6: a dealer 16 with one card in the shoe draws exactly
once and finishes at 21. -/
theorem C6_witness :
    17 ≤ sum_hand [10, 6, 5] ∧
    ([10, 6] : List ℕ).length < ([10, 6, 5] : List ℕ).length :=
  ⟨(C6_dealer_policy [5] ⟨↑[5], [10, 10], [10, 6], 0, false, false⟩).2.1
      ⟨0, [10, 10], [10, 6, 5], 3/2, false, false⟩ []
      (by with_unfolding_all rfl),
   (C6_dealer_policy [5] ⟨↑[5], [10, 10], [10, 6], 0, false, false⟩).2.2.1
      (by decide) (by decide)
      ⟨0, [10, 10], [10, 6, 5], 3/2, false, false⟩ []
      (by with_unfolding_all rfl)⟩

/-- C10: when a double busts the player, the reward is 0 if the resolved
dealer hand also busts and -2 otherwise — unlike hit, where a player
bust is always rewarded -1. -/
theorem C10_double_bust (tape t2 : List ℕ) (s s2 : State) (r : ℚ) (d : Bool)
    (h : stepF 2 tape s = .ok (s2, r, d, t2))
    (hb : is_bust s2.player = true) :
    (is_bust s2.dealer = true → r = 0) ∧
    (is_bust s2.dealer = false → r = -2) ∧
    (∀ tape1 t1 s0 s1 r1 d1, stepF 1 tape1 s0 = .ok (s1, r1, d1, t1) →
      is_bust s1.player = true → r1 = -1) := by
  obtain ⟨hr, hd, h17, c, hc, hp⟩ := step2_ok tape t2 s s2 r d h
  have hps : score s2.player = 0 := by simp [score, hb]
  refine ⟨?_, ?_,
    fun tape1 t1 s0 s1 r1 d1 h1 hb1 => step1_bust tape1 t1 s0 s1 r1 d1 h1 hb1⟩
  · intro hdb
    have hds : score s2.dealer = 0 := by simp [score, hdb]
    rw [hr, hps, hds]
    norm_num [cmp]
  · intro hdb
    have hds : score s2.dealer = sum_hand s2.dealer := by simp [score, hdb]
    rw [hr, hps, hds, cmp_lt 0 (sum_hand s2.dealer) (by omega)]
    norm_num

/-- Witness for C10: a busting double against a standing dealer 18
(reward -2), alongside a busting hit (reward -1). -/
theorem C10_witness : ((-2 : ℚ) = -2) ∧ ((-1 : ℚ) = -1) :=
  ⟨(C10_double_bust [10] [] ⟨↑[10, 9], [10, 8], [9, 9], 0, false, false⟩
      ⟨↑[9], [10, 8, 10], [9, 9], -(3/2), false, false⟩ (-2) true
      (by with_unfolding_all rfl) (by decide)).2.1 (by decide),
   (C10_double_bust [10] [] ⟨↑[10, 9], [10, 8], [9, 9], 0, false, false⟩
      ⟨↑[9], [10, 8, 10], [9, 9], -(3/2), false, false⟩ (-2) true
      (by with_unfolding_all rfl) (by decide)).2.2 [10] []
      ⟨↑[10], [10, 9], [5, 5], 0, false, false⟩
      ⟨0, [10, 9, 10], [5, 5], -1, false, false⟩ (-1) true
      (by with_unfolding_all rfl) (by decide)⟩


/-- Rearranging the four freshly dealt cards with the remaining shoe. -/
lemma four_cons_shuffle (c1 c2 c3 c4 : ℕ) (m : Multiset ℕ) :
    (↑([c3, c4]) : Multiset ℕ) + ↑([c1, c2]) + m =
      c1 ::ₘ c2 ::ₘ c3 ::ₘ c4 ::ₘ m := by
  have h34 : (↑([c3, c4]) : Multiset ℕ) = {c3} + ({c4} + 0) := rfl
  have h12 : (↑([c1, c2]) : Multiset ℕ) = {c1} + ({c2} + 0) := rfl
  rw [h34, h12, ← Multiset.singleton_add c1, ← Multiset.singleton_add c2,
    ← Multiset.singleton_add c3, ← Multiset.singleton_add c4]
  abel

/-- Postcondition of a successful dealing phase: both hands are fresh
two-card hands, only the dealer up-card and the two player cards enter
the running count, and the four dealt cards together with the remaining
shoe make up the shoe the dealing started from. -/
lemma dealPhase_ok (tape t2 : List ℕ) (s s2 : State)
    (h : dealPhase tape s = .ok (s2, t2)) :
    ∃ c1 c2 c3 c4,
      s2.dealer = [c1, c2] ∧ s2.player = [c3, c4] ∧
      s2.sab = s.sab ∧ s2.natural = s.natural ∧
      s2.current_count =
        s.current_count + card_scores c1 + card_scores c3 + card_scores c4 ∧
      (↑s2.player : Multiset ℕ) + ↑s2.dealer + s2.deck = s.deck := by
  unfold dealPhase at h
  split at h
  · exact absurd h (by simp)
  · rename_i c1 t1 s1 heq1
    obtain ⟨rfl, hc1, rfl⟩ := (draw1_ok_iff _ _ c1 t1 s1).1 heq1
    split at h
    · exact absurd h (by simp)
    · rename_i c2 ta2 sa2 heq2
      obtain ⟨rfl, hc2, rfl⟩ := (draw1_ok_iff _ _ c2 ta2 sa2).1 heq2
      dsimp only at h
      split at h
      · exact absurd h (by simp)
      · rename_i c3 t3 s3 heq3
        obtain ⟨rfl, hc3, rfl⟩ := (draw1_ok_iff _ _ c3 t3 s3).1 heq3
        split at h
        · exact absurd h (by simp)
        · rename_i c4 t4 s4 heq4
          obtain ⟨rfl, hc4, rfl⟩ := (draw1_ok_iff _ _ c4 t4 s4).1 heq4
          simp only [Except.ok.injEq, Prod.mk.injEq] at h
          obtain ⟨rfl, rfl⟩ := h
          refine ⟨c1, c2, c3, c4, rfl, rfl, rfl, rfl, rfl, ?_⟩
          dsimp only at hc1 hc2 hc3 hc4 ⊢
          rw [four_cons_shuffle, Multiset.cons_erase hc4,
            Multiset.cons_erase hc3, Multiset.cons_erase hc2,
            Multiset.cons_erase hc1]

/-- Full postcondition of a successful `reset()`, with the reshuffle
threshold folded in. -/
lemma resetF_ok (tape t2 : List ℕ) (s s2 : State)
    (h : resetF tape s = .ok (s2, t2)) :
    ∃ c1 c2 c3 c4,
      s2.dealer = [c1, c2] ∧ s2.player = [c3, c4] ∧
      s2.sab = s.sab ∧ s2.natural = s.natural ∧
      s2.current_count =
        (if Multiset.card s.deck < 15 then 0 else s.current_count) +
          card_scores c1 + card_scores c3 + card_scores c4 ∧
      (↑s2.player : Multiset ℕ) + ↑s2.dealer + s2.deck =
        (if Multiset.card s.deck < 15 then full_deck else s.deck) := by
  unfold resetF at h
  by_cases hres : Multiset.card s.deck < 15 <;>
    [rw [if_pos hres] at h; rw [if_neg hres] at h] <;>
    [rw [if_pos hres, if_pos hres]; rw [if_neg hres, if_neg hres]] <;>
  · obtain ⟨c1, c2, c3, c4, hd, hp, hsab, hnat, hcnt, htot⟩ :=
      dealPhase_ok _ _ _ _ h
    exact ⟨c1, c2, c3, c4, hd, hp, hsab, hnat, hcnt, htot⟩

/-- C1 (amended): after a successful `reset()`, the running count is the
pre-draw count (0 after a reshuffle) plus the Halves weights of the
dealer up-card and the two player cards only — the dealer hole card is
not counted at deal time. -/
theorem C1_reset_count (tape t2 : List ℕ) (s s2 : State)
    (h : resetF tape s = .ok (s2, t2)) :
    ∃ c1 c2 c3 c4,
      s2.dealer = [c1, c2] ∧ s2.player = [c3, c4] ∧
      s2.current_count =
        (if Multiset.card s.deck < 15 then 0 else s.current_count) +
          card_scores c1 + card_scores c3 + card_scores c4 := by
  obtain ⟨c1, c2, c3, c4, hd, hp, _, _, hcnt, _⟩ := resetF_ok tape t2 s s2 h
  exact ⟨c1, c2, c3, c4, hd, hp, hcnt⟩

/-- Witness for C1: a reset from a 15-card shoe dealing dealer `[5, 5]`
and player `[2, 3]` on top of a pre-draw count of 1. -/
theorem C1_witness :
    ∃ c1 c2 c3 c4,
      ([5, 5] : List ℕ) = [c1, c2] ∧ ([2, 3] : List ℕ) = [c3, c4] ∧
      (4 : ℚ) =
        (if Multiset.card ((↑[5, 5, 2, 3, 8, 8, 8, 8, 8, 8, 8, 8, 8, 8, 8] :
            Multiset ℕ)) < 15 then 0 else 1) +
          card_scores c1 + card_scores c3 + card_scores c4 :=
  C1_reset_count [5, 5, 2, 3] []
    ⟨↑[5, 5, 2, 3, 8, 8, 8, 8, 8, 8, 8, 8, 8, 8, 8], [], [], 1, false, false⟩
    ⟨↑[8, 8, 8, 8, 8, 8, 8, 8, 8, 8, 8], [2, 3], [5, 5], 4, false, false⟩
    (by with_unfolding_all rfl)

/-- Counterexample to C1 as stated: on this reset the running count ends
at 4 — the pre-draw count plus the weights of the visible three cards —
whereas counting the dealer hole card too would demand 11/2. -/
theorem C1_counterexample :
    resetF [5, 5, 2, 3]
        ⟨↑[5, 5, 2, 3, 8, 8, 8, 8, 8, 8, 8, 8, 8, 8, 8], [], [], 1, false, false⟩ =
      .ok (⟨↑[8, 8, 8, 8, 8, 8, 8, 8, 8, 8, 8], [2, 3], [5, 5], 4, false, false⟩, []) ∧
    (1 : ℚ) + card_scores 5 + card_scores 5 + card_scores 2 + card_scores 3 = 11/2 ∧
    (4 : ℚ) ≠ 11/2 := by
  refine ⟨by with_unfolding_all rfl, by norm_num [card_scores], by norm_num⟩


/-- Counting backbone: in any multiset of cards all at least 1, four
times the card count is bounded by the sum plus three per ace, two per
two and one per three. -/
lemma card_bound_aux (m : Multiset ℕ) (h1 : ∀ x ∈ m, 1 ≤ x) :
    4 * Multiset.card m ≤
      m.sum + 3 * m.count 1 + 2 * m.count 2 + m.count 3 := by
  induction m using Multiset.induction with
  | empty => simp
  | cons a t ih =>
    have ha : 1 ≤ a := h1 a (Multiset.mem_cons_self a t)
    have ih2 := ih fun x hx => h1 x (Multiset.mem_cons_of_mem hx)
    simp only [Multiset.card_cons, Multiset.sum_cons, Multiset.count_cons]
    split_ifs <;> omega

/-- Availability bound: a sub-multiset of the four-deck shoe has only
four aces, four twos and four threes, so four times its size is at most
its sum plus 24. -/
lemma core_bound (m : Multiset ℕ) (hm : m ≤ full_deck) :
    4 * Multiset.card m ≤ m.sum + 24 := by
  have h1 : ∀ x ∈ m, 1 ≤ x := fun x hx =>
    (by decide : ∀ x ∈ full_deck, 1 ≤ x) x (Multiset.mem_of_le hm hx)
  have hc1 : m.count 1 ≤ 4 := le_trans (Multiset.count_le_of_le 1 hm) (by decide)
  have hc2 : m.count 2 ≤ 4 := le_trans (Multiset.count_le_of_le 2 hm) (by decide)
  have hc3 : m.count 3 ≤ 4 := le_trans (Multiset.count_le_of_le 3 hm) (by decide)
  have := card_bound_aux m h1
  omega

/-- A non-busted hand drawn from the shoe has at most 11 cards. -/
lemma player_card_le (p : List ℕ) (hp : (↑p : Multiset ℕ) ≤ full_deck)
    (hs : p.sum ≤ 21) : p.length ≤ 11 := by
  have h := core_bound ↑p hp
  rw [Multiset.coe_card] at h
  have hsum : Multiset.sum (↑p : Multiset ℕ) = p.sum := Multiset.sum_coe p
  omega

/-- The naive sum never exceeds the soft-adjusted total. -/
lemma sum_le_sum_hand (hand : List ℕ) : hand.sum ≤ sum_hand hand := by
  unfold sum_hand
  split <;> omega

/-- A hand whose naive sum is within 21 also has `sum_hand` within 21
(a usable ace enforces this by definition). -/
lemma sum_hand_le (hand : List ℕ) (hs : hand.sum ≤ 21) : sum_hand hand ≤ 21 := by
  unfold sum_hand
  split
  · rename_i h
    have h2 : hand.sum + 10 ≤ 21 := by
      simpa [usable_ace] using (by simpa [usable_ace] using h : _ ∧ _).2
    exact h2
  · omega

/-- While the dealer is still to draw (total below 17), the shoe cannot
be empty: the player hand (at most one card beyond a non-busted hand)
and the partial dealer hand cannot exhaust a 17-card pool. -/
lemma loop_deck_ne (s : State) (pre : Multiset ℕ) (k : ℕ)
    (hpre : pre ≤ ↑s.player) (hsum : Multiset.sum pre ≤ 21)
    (hlen : s.player.length ≤ Multiset.card pre + k) (hk : k ≤ 1)
    (hsub : (↑s.player : Multiset ℕ) + ↑s.dealer + s.deck ≤ full_deck)
    (hcard : 17 ≤ Multiset.card (↑s.player + ↑s.dealer + s.deck : Multiset ℕ))
    (hd : sum_hand s.dealer < 17) : s.deck ≠ 0 := by
  intro h0
  have hdsum : s.dealer.sum ≤ 16 := by
    have := sum_le_sum_hand s.dealer
    omega
  have hsub2 : pre + (↑s.dealer : Multiset ℕ) ≤ full_deck := by
    refine le_trans (le_trans (add_le_add_right hpre ((s.dealer : List ℕ) : Multiset ℕ)) ?_) hsub
    exact self_le_add_right _ _
  have hcb := core_bound (pre + ↑s.dealer) hsub2
  rw [Multiset.card_add, Multiset.coe_card] at hcb
  have hsum2 : Multiset.sum (pre + (↑s.dealer : Multiset ℕ)) ≤ 37 := by
    rw [Multiset.sum_add]
    have hds : Multiset.sum (↑s.dealer : Multiset ℕ) = s.dealer.sum :=
      Multiset.sum_coe _
    omega
  have hcard2 : 17 ≤ s.player.length + s.dealer.length := by
    simpa [h0, Multiset.card_add, Multiset.coe_card] using hcard
  rw [Multiset.sum_add] at hcb hsum2
  omega

/-- The dealer-resolution loop never draws from an empty shoe when the
round pool holds at least 17 cards of the four-deck shoe and the player
hand is a non-busted hand plus at most one extra card. -/
lemma dealerLoop_safe (tape : List ℕ) (s : State) (pre : Multiset ℕ) (k : ℕ)
    (hpre : pre ≤ ↑s.player) (hsum : Multiset.sum pre ≤ 21)
    (hlen : s.player.length ≤ Multiset.card pre + k) (hk : k ≤ 1)
    (hsub : (↑s.player : Multiset ℕ) + ↑s.dealer + s.deck ≤ full_deck)
    (hcard : 17 ≤ Multiset.card (↑s.player + ↑s.dealer + s.deck : Multiset ℕ)) :
    dealerLoop tape s ≠ .error .emptyShoe := by
  induction tape generalizing s with
  | nil =>
    intro hx
    unfold dealerLoop at hx
    split at hx
    · rename_i hlt
      rw [if_neg (loop_deck_ne s pre k hpre hsum hlen hk hsub hcard hlt)] at hx
      exact absurd hx (by simp)
    · exact absurd hx (by simp)
  | cons c rest ih =>
    intro hx
    unfold dealerLoop at hx
    split at hx
    · rename_i hlt
      have hne := loop_deck_ne s pre k hpre hsum hlen hk hsub hcard hlt
      rw [if_neg hne] at hx
      split at hx
      · rename_i hcmem
        have key : (↑s.player : Multiset ℕ) + ↑(s.dealer ++ [c]) + s.deck.erase c =
            ↑s.player + ↑s.dealer + s.deck := by
          rw [add_assoc, add_assoc]
          congr 1
          exact total_move s.dealer s.deck c hcmem
        refine ih { s with deck := s.deck.erase c,
                           current_count := s.current_count + card_scores c,
                           dealer := s.dealer ++ [c] } hpre hlen ?_ ?_ hx
        · exact key.trans_le hsub
        · exact le_of_le_of_eq hcard (congrArg Multiset.card key.symm)
      · exact absurd hx (by simp)
    · exact absurd hx (by simp)


/-- Moving one freshly drawn card into the player hand preserves the
combined card pool. -/
lemma total_move_player (p d : List ℕ) (m : Multiset ℕ) (c : ℕ) (hc : c ∈ m) :
    (↑(p ++ [c]) : Multiset ℕ) + ↑d + m.erase c = ↑p + ↑d + m := by
  rw [← Multiset.coe_add, Multiset.coe_singleton]
  nth_rewrite 2 [← Multiset.cons_erase hc]
  rw [← Multiset.singleton_add]
  abel

/-- A hand is a sub-multiset of the same hand with one card appended. -/
lemma coe_append_le (p : List ℕ) (c : ℕ) :
    (↑p : Multiset ℕ) ≤ ↑(p ++ [c]) := by
  rw [← Multiset.coe_add]
  exact self_le_add_right _ _

/-- Invariant holding between the steps of one round: the two hands and
the shoe together form at most the four-deck shoe and at least 17
cards, the player hand is not busted, and the dealer holds exactly the
two dealt cards. -/
def RoundInv (s : State) : Prop :=
  (↑s.player + ↑s.dealer + s.deck : Multiset ℕ) ≤ full_deck ∧
  17 ≤ Multiset.card (↑s.player + ↑s.dealer + s.deck : Multiset ℕ) ∧
  sum_hand s.player ≤ 21 ∧ s.dealer.length = 2

/-- Under the round invariant the player hand is part of the four-deck
shoe. -/
lemma inv_player_sub (s : State) (hinv : RoundInv s) :
    (↑s.player : Multiset ℕ) ≤ full_deck :=
  le_trans (le_trans (self_le_add_right _ _) (self_le_add_right _ _)) hinv.1

/-- Under the round invariant the player holds at most 11 cards. -/
lemma inv_player_len (s : State) (hinv : RoundInv s) : s.player.length ≤ 11 := by
  refine player_card_le s.player (inv_player_sub s hinv) ?_
  have h1 := sum_le_sum_hand s.player
  have h2 := hinv.2.2.1
  omega

/-- Under the round invariant the shoe is non-empty. -/
lemma inv_deck_ne (s : State) (hinv : RoundInv s) : s.deck ≠ 0 := by
  intro h0
  have hct := hinv.2.1
  rw [h0, add_zero, Multiset.card_add, Multiset.coe_card,
    Multiset.coe_card] at hct
  have h1 := inv_player_len s hinv
  have h2 := hinv.2.2.2
  omega

/-- Under the round invariant, no `step` call draws from an empty shoe. -/
lemma stepF_no_empty (a : ℕ) (tape : List ℕ) (s : State) (hinv : RoundInv s) :
    stepF a tape s ≠ .error .emptyShoe := by
  have hdeck := inv_deck_ne s hinv
  have hpsum : s.player.sum ≤ 21 := by
    have h1 := sum_le_sum_hand s.player
    have h2 := hinv.2.2.1
    omega
  have hpsumc : Multiset.sum (↑s.player : Multiset ℕ) ≤ 21 := by
    rw [Multiset.sum_coe]
    exact hpsum
  intro hx
  unfold stepF at hx
  split at hx
  · simp at hx
  · split at hx
    · -- hit
      split at hx
      · rename_i e heq
        simp only [Except.error.injEq] at hx
        subst hx
        exact hdeck ((draw1_empty_iff _ _).1 heq)
      · dsimp only at hx
        split at hx <;> simp at hx
    · split at hx
      · -- double
        split at hx
        · rename_i e heq
          simp only [Except.error.injEq] at hx
          subst hx
          exact hdeck ((draw1_empty_iff _ _).1 heq)
        · rename_i c t1 s1 heq
          obtain ⟨rfl, hc, rfl⟩ := (draw1_ok_iff _ _ c t1 s1).1 heq
          dsimp only at hx
          split at hx
          · rename_i e heq2
            simp only [Except.error.injEq] at hx
            subst hx
            have key := total_move_player s.player s.dealer s.deck c hc
            refine dealerLoop_safe t1 _ ↑s.player 1 (coe_append_le s.player c)
              hpsumc ?_ (by omega) (key.trans_le hinv.1)
              (le_of_le_of_eq hinv.2.1 (congrArg Multiset.card key.symm)) heq2
            show (s.player ++ [c]).length ≤ Multiset.card (↑s.player : Multiset ℕ) + 1
            rw [Multiset.coe_card]
            simp
          · simp at hx
      · -- stand
        dsimp only at hx
        split at hx
        · rename_i e heq2
          simp only [Except.error.injEq] at hx
          subst hx
          refine dealerLoop_safe tape
            { s with current_count :=
                s.current_count + card_scores (s.dealer.getD 1 0) }
            ↑s.player 0 le_rfl hpsumc ?_ (by omega) hinv.1 hinv.2.1 heq2
          show s.player.length ≤ Multiset.card (↑s.player : Multiset ℕ) + 0
          rw [Multiset.coe_card]
          omega
        · simp at hx


/-- A step that does not end the round (a non-busting hit) preserves the
round invariant. -/
lemma stepF_preserve (a : ℕ) (tape t2 : List ℕ) (s s2 : State) (r : ℚ)
    (h : stepF a tape s = .ok (s2, r, false, t2)) (hinv : RoundInv s) :
    RoundInv s2 := by
  by_cases h3 : 3 ≤ a
  · unfold stepF at h
    rw [if_pos h3] at h
    simp at h
  · by_cases ha1 : a = 1
    · subst ha1
      unfold stepF at h
      rw [if_neg h3, if_pos rfl] at h
      split at h
      · simp at h
      · rename_i c t1 s1 heq
        obtain ⟨rfl, hc, rfl⟩ := (draw1_ok_iff _ _ c t1 s1).1 heq
        dsimp only at h
        split at h
        · simp only [Except.ok.injEq, Prod.mk.injEq] at h
          exact absurd h.2.2.1 (by simp)
        · rename_i hnb
          simp only [Except.ok.injEq, Prod.mk.injEq] at h
          obtain ⟨rfl, hrr, hff, rfl⟩ := h
          have key := total_move_player s.player s.dealer s.deck c hc
          refine ⟨key.trans_le hinv.1,
            le_of_le_of_eq hinv.2.1 (congrArg Multiset.card key.symm), ?_,
            hinv.2.2.2⟩
          show sum_hand (s.player ++ [c]) ≤ 21
          have hnb2 : ¬ sum_hand (s.player ++ [c]) > 21 := by
            intro hgt
            exact hnb (by simpa [is_bust] using hgt)
          omega
    · by_cases ha2 : a = 2
      · subst ha2
        obtain ⟨hr2, hd2, hrest⟩ := step2_ok tape t2 s s2 r false h
        simp at hd2
      · have ha0 : a = 0 := by omega
        subst ha0
        obtain ⟨h17, hpl, hsab, hnat, hd0, hr0⟩ := step0_ok tape t2 s s2 r false h
        simp at hd0

/-- The dealing phase never draws from an empty shoe when the shoe
starts with at least four cards. -/
lemma dealPhase_no_empty (tape : List ℕ) (s : State)
    (h4 : 4 ≤ Multiset.card s.deck) : dealPhase tape s ≠ .error .emptyShoe := by
  intro hx
  unfold dealPhase at hx
  split at hx
  · rename_i e heq
    simp only [Except.error.injEq] at hx
    subst hx
    rw [(draw1_empty_iff _ _).1 heq] at h4
    simp at h4
  · rename_i c1 t1 s1 heq1
    obtain ⟨rfl, hc1, rfl⟩ := (draw1_ok_iff _ _ c1 t1 s1).1 heq1
    have h41 : 3 ≤ Multiset.card (s.deck.erase c1) := by
      have := Multiset.card_erase_of_mem hc1
      rw [Nat.pred_eq_sub_one] at this
      omega
    split at hx
    · rename_i e heq
      simp only [Except.error.injEq] at hx
      subst hx
      have h0 := (draw1_empty_iff _ _).1 heq
      dsimp only at h0
      rw [h0] at h41
      simp at h41
    · rename_i c2 ta2 sa2 heq2
      obtain ⟨rfl, hc2, rfl⟩ := (draw1_ok_iff _ _ c2 ta2 sa2).1 heq2
      dsimp only at hc2 ⊢
      have h42 : 2 ≤ Multiset.card ((s.deck.erase c1).erase c2) := by
        have := Multiset.card_erase_of_mem hc2
        rw [Nat.pred_eq_sub_one] at this
        omega
      dsimp only at hx
      split at hx
      · rename_i e heq
        simp only [Except.error.injEq] at hx
        subst hx
        have h0 := (draw1_empty_iff _ _).1 heq
        dsimp only at h0
        rw [h0] at h42
        simp at h42
      · rename_i c3 t3 s3 heq3
        obtain ⟨rfl, hc3, rfl⟩ := (draw1_ok_iff _ _ c3 t3 s3).1 heq3
        dsimp only at hc3
        have h43 : 1 ≤ Multiset.card (((s.deck.erase c1).erase c2).erase c3) := by
          have := Multiset.card_erase_of_mem hc3
          rw [Nat.pred_eq_sub_one] at this
          omega
        split at hx
        · rename_i e heq
          simp only [Except.error.injEq] at hx
          subst hx
          have h0 := (draw1_empty_iff _ _).1 heq
          dsimp only at h0
          rw [h0] at h43
          simp at h43
        · simp at hx

/-- No step of the post-reset phase of a round draws from an empty shoe
while the round invariant holds. -/
lemma playSteps_no_empty (actions tape : List ℕ) (s : State)
    (hinv : RoundInv s) : playSteps actions tape s ≠ .error .emptyShoe := by
  induction actions generalizing tape s with
  | nil => simp [playSteps]
  | cons a as ih =>
    intro hx
    unfold playSteps at hx
    split at hx
    · rename_i e heq
      simp only [Except.error.injEq] at hx
      subst hx
      exact stepF_no_empty a tape s hinv heq
    · rename_i s3 r done t3 heq
      split at hx
      · simp at hx
      · rename_i hdone
        have hdone2 : done = false := by
          simpa using hdone
        rw [hdone2] at heq
        exact ih t3 s3 (stepF_preserve a tape t3 s s3 r heq hinv) hx


/-- C2 (amended): `draw_card` hits its unreachable-state failure exactly
on an empty shoe, and a round that begins with at least 17 cards of the
four-deck shoe never draws from an empty shoe.  (The implemented
threshold 15 does not guarantee this; see the counterexample.) -/
theorem C2_shoe_threshold (actions tape : List ℕ) (s : State)
    (hsub : s.deck ≤ full_deck) (hcard : 17 ≤ Multiset.card s.deck) :
    (∀ t, draw1 t s = .error .emptyShoe ↔ s.deck = 0) ∧
    playRound actions tape s ≠ .error .emptyShoe := by
  refine ⟨fun t => draw1_empty_iff t s, ?_⟩
  intro hx
  unfold playRound at hx
  split at hx
  · rename_i e heq
    simp only [Except.error.injEq] at hx
    subst hx
    unfold resetF at heq
    rw [if_neg (by omega)] at heq
    exact dealPhase_no_empty tape s (by omega) heq
  · rename_i s1 t1 heq
    obtain ⟨c1, c2, c3, c4, hdl2, hpl2, hsab2, hnat2, hcnt2, htot⟩ :=
      resetF_ok tape t1 s s1 heq
    rw [if_neg (by omega)] at htot
    have hsub1 : (↑s1.player + ↑s1.dealer + s1.deck : Multiset ℕ) ≤ full_deck :=
      htot.trans_le hsub
    have hcard1 :
        17 ≤ Multiset.card (↑s1.player + ↑s1.dealer + s1.deck : Multiset ℕ) :=
      le_of_le_of_eq hcard (congrArg Multiset.card htot.symm)
    have hpsub : (↑s1.player : Multiset ℕ) ≤ full_deck :=
      le_trans (le_trans (self_le_add_right _ _) (self_le_add_right _ _)) hsub1
    have hmem10 : ∀ x ∈ s1.player, x ≤ 10 := fun x hxm =>
      (by decide : ∀ x ∈ full_deck, x ≤ 10) x
        (Multiset.mem_of_le hpsub (Multiset.mem_coe.2 hxm))
    have hsum1 : s1.player.sum ≤ 21 := by
      have h3 : c3 ≤ 10 := hmem10 c3 (by rw [hpl2]; simp)
      have h4 : c4 ≤ 10 := hmem10 c4 (by rw [hpl2]; simp)
      rw [hpl2]
      simp only [List.sum_cons, List.sum_nil]
      omega
    have hdl1 : s1.dealer.length = 2 := by
      rw [hdl2]
      rfl
    exact playSteps_no_empty actions t1 s1
      ⟨hsub1, hcard1, sum_hand_le s1.player hsum1, hdl1⟩ hx

/-- Witness for C2: a full 52-card shoe, a stand-only round against a
dealer natural. -/
theorem C2_witness :
    (∀ t, draw1 t (⟨full_deck, [], [], 0, false, false⟩ : State) =
        .error .emptyShoe ↔
      (⟨full_deck, [], [], 0, false, false⟩ : State).deck = 0) ∧
    playRound [0] [10, 1, 10, 10] ⟨full_deck, [], [], 0, false, false⟩ ≠
      .error .emptyShoe :=
  C2_shoe_threshold [0] [10, 1, 10, 10] ⟨full_deck, [], [], 0, false, false⟩
    le_rfl (by decide)

/-- Counterexample to C2 as stated: a round that begins exactly at the
reshuffle threshold (15 cards, so `reset()` does not reshuffle) can
reach a dealer draw from an empty shoe: dealer `[4,4]`, player `[1,1]`
hitting nine times up to 21, then standing; the dealer reaches 15 with
two cards left and must draw from an empty shoe. -/
theorem C2_counterexample :
    Multiset.card ((↑[1, 1, 1, 1, 2, 2, 2, 2, 3, 3, 3, 3, 4, 4, 4] :
        Multiset ℕ)) = 15 ∧
    ((↑[1, 1, 1, 1, 2, 2, 2, 2, 3, 3, 3, 3, 4, 4, 4] : Multiset ℕ)) ≤
      full_deck ∧
    playRound [1, 1, 1, 1, 1, 1, 1, 1, 1, 0]
        [4, 4, 1, 1, 1, 1, 2, 2, 2, 2, 3, 3, 3, 3, 4]
        ⟨↑[1, 1, 1, 1, 2, 2, 2, 2, 3, 3, 3, 3, 4, 4, 4], [], [], 0,
          false, false⟩ =
      .error .emptyShoe := by
  refine ⟨by decide, by decide, ?_⟩
  with_unfolding_all rfl

end Blackjack
